import Mathlib

/-!
Verification development for the deep-copy source-code generator
(package `deepcopy`): a shallow embedding of the generator's data model
and algorithms, followed by theorems about the embedded functions.

The embedding mirrors the Go source: `go/types` type shapes become the
inductive `Ty`, method sets become lists of `Method` records, the
mutable `imports` map becomes an association list threaded through the
traversal, emitted code is modelled as the exact strings written by the
corresponding `fmt.Fprintf` calls, and the recursive walker is given an
explicit fuel argument (`none` = fuel exhausted) because Go's recursion
carries no structural termination argument.
-/

namespace DeepCopyGen

set_option maxRecDepth 40000

/-- Configuration of a `Generator` as built by `NewGenerator`:
`isPtrRecv`, `methodName` and `maxDepth` (an `int` in Go, so modelled
as `Int`; only positive values activate the depth cutoff). -/
structure Config where
  isPtrRecv : Bool
  methodName : String
  maxDepth : Int
  deriving Repr, DecidableEq

mutual
/-- Shape of a `go/types` type as consumed by `walkType`.  A `named`
type carries its declaring package's name and path and its own name
(`Obj().Pkg().Name()`, `Obj().Pkg().Path()`, `Obj().Name()`); a named
type whose declaring package is nil (universe types) is modelled with
an empty package name and path.  Struct field lists are the mutual
inductive `Fields` so that structural recursion is available. -/
inductive Ty where
  | basic (name : String)
  | named (pkgName pkgPath name : String)
  | ptr (elem : Ty)
  | slice (elem : Ty)
  | chan (elem : Ty)
  | mp (key elem : Ty)
  | strukt (fields : Fields)
  deriving Repr

/-- Field list of a struct type: name, exported flag, field type, in
declaration order. -/
inductive Fields where
  | nil
  | cons (name : String) (exported : Bool) (ty : Ty) (rest : Fields)
  deriving Repr
end

/-- One entry of a method set, as inspected by `hasDeepCopy`: the
method's name, whether its `Type()` is a `*types.Signature` (`isSig`),
the parameter and result counts, the single result's type and the
receiver's type.  (`retType` is only meaningful when `results = 1`,
matching the Go code, which reads `Results().At(0)` only after checking
`Results().Len() == 1`.) -/
structure Method where
  name : String
  isSig : Bool
  params : Nat
  results : Nat
  retType : Ty
  recvType : Ty

/-- Definition attached to a named type: its underlying shape and its
method set. -/
structure TyDef where
  underlying : Ty
  methods : List Method

/-- The type graph: what each named type (keyed by package name,
package path and type name) resolves to.  Cyclic graphs are
representable because entries refer to each other by name. -/
abbrev Env := List ((String × String × String) × TyDef)

/-- Look a named type up in the type graph. -/
def envLookup (env : Env) (pn pp n : String) : Option TyDef :=
  (env.find? (fun e => e.1.1 == pn && e.1.2.1 == pp && e.1.2.2 == n)).map (·.2)

/-- Model of `types.Type.Underlying()`: a named type resolves to its
definition's underlying shape (an unresolved name stays put, which the
walker then treats as "no applicable shape"); every other type is its
own underlying. -/
def underlyingOf (env : Env) : Ty → Ty
  | .named pn pp n =>
      match envLookup env pn pp n with
      | some d => d.underlying
      | none => .named pn pp n
  | t => t

/-- Model of the `m.(methoder)` type assertion: only named types expose
`Method`/`NumMethods` here, with the method set taken from the type
graph (an unresolved named type has an empty method set). -/
def methodsOf (env : Env) : Ty → Option (List Method)
  | .named pn pp n =>
      some (match envLookup env pn pp n with
            | some d => d.methods
            | none => [])
  | _ => none

/-- Model of the cross-unit export filter test in `walkType`: for a
named type, `Obj().Pkg() != nil && Obj().Pkg().Name() != x`. -/
def needExportedOf (x : String) : Ty → Bool
  | .named pn _ _ => pn != "" && pn != x
  | _ => false

/-- Model of `reducePointer`.  The Go `pointer` interface is just
`Elem() types.Type`, which pointers, slices, channels and maps all
satisfy, so all of them are stripped (maps via their value type),
exactly as the Go type assertion behaves. -/
def reducePointer : Ty → Ty × Bool
  | .ptr e => (e, true)
  | .slice e => (e, true)
  | .chan e => (e, true)
  | .mp _ e => (e, true)
  | t => (t, false)

mutual
/-- Model of `types.Identical`: structural identity, with named types
identical exactly when they are the same type object (same declaring
package name/path and type name). -/
def identical : Ty → Ty → Bool
  | .basic a, .basic b => a == b
  | .named pn pp n, .named pn2 pp2 n2 => pn == pn2 && pp == pp2 && n == n2
  | .ptr a, .ptr b => identical a b
  | .slice a, .slice b => identical a b
  | .chan a, .chan b => identical a b
  | .mp k v, .mp k2 v2 => identical k k2 && identical v v2
  | .strukt a, .strukt b => identicalFields a b
  | _, _ => false

/-- Field-list part of `types.Identical`. -/
def identicalFields : Fields → Fields → Bool
  | .nil, .nil => true
  | .cons n e t r, .cons n2 e2 t2 r2 =>
      n == n2 && e == e2 && identical t t2 && identicalFields r r2
  | _, _ => false
end

/-- Scan part of `Generator.hasDeepCopy` (the loop over
`v.NumMethods()`): skip methods whose name differs, whose `Type()` is
not a signature, or whose parameter/result counts are wrong; for a
surviving method compare result and receiver types after
`reducePointer`; a mismatch returns `(false, false)` immediately, a
match returns `(true, retPointer)`. -/
def scanMethods (g : Config) : List Method → Bool × Bool
  | [] => (false, false)
  | m :: rest =>
      if m.name != g.methodName then scanMethods g rest
      else if !m.isSig then scanMethods g rest
      else if m.params != 0 || m.results != 1 then scanMethods g rest
      else
        let rp := reducePointer m.retType
        let sp := reducePointer m.recvType
        if !identical rp.1 sp.1 then (false, false)
        else (true, rp.2)

/-- Model of `Generator.hasDeepCopy`: first check whether `v` is
identical to a member of the generating set (answering with the
configured receiver shape), otherwise scan `v`'s method set. -/
def hasDeepCopy (g : Config) (generating : List Ty) (v : Ty)
    (ms : List Method) : Bool × Bool :=
  if generating.any (fun t => identical v t) then (true, g.isPtrRecv)
  else scanMethods g ms

/-- Text written by `reuseDeepCopy` when a reusable method was found,
for the four pointer/value combinations (`pointerWanted` is the
`pointer` argument, `isPointer` the detector's result shape). -/
def adaptCall (mname source sink : String)
    (pointerWanted isPointer : Bool) : String :=
  if pointerWanted == isPointer then
    sink ++ " = " ++ source ++ "." ++ mname ++ "()\n"
  else if pointerWanted then
    "retV := " ++ source ++ "." ++ mname ++ "()\n\t" ++ sink ++ " = &retV\n"
  else
    "\x7b\n\tretV := " ++ source ++ "." ++ mname ++ "()\n\t" ++ sink
      ++ " = *retV\n\x7d\n"

/-- Model of `reuseDeepCopy`: returns the text written to `w` (empty
when no method was found) and the `hasMethod` answer. -/
def reuseDeepCopy (g : Config) (generating : List Ty)
    (source sink : String) (v : Ty) (ms : List Method)
    (pointerWanted : Bool) : String × Bool :=
  let hd := hasDeepCopy g generating v ms
  (if hd.1 then adaptCall g.methodName source sink pointerWanted hd.2 else "",
   hd.1)

/-- A skip set (`skips` in Go, `map[string]struct{}`): modelled as the
list of its members; `Contains` is exact string membership. -/
abbrev Skips := List String

/-- Model of `skips.Contains` (and of the direct map lookup
`_, ok := skips[sel]` in the struct case). -/
def Skips.ContainsSel (s : Skips) (sel : String) : Bool :=
  List.contains s sel

/-- The per-target-type list of skip sets. -/
abbrev SkipLists := List Skips

/-- Model of `SkipLists.Get`: the i-th skip set when in range,
otherwise the zero value (a nil map, i.e. the empty skip set). -/
def SkipLists.Get (l : SkipLists) (i : Nat) : Skips :=
  if h : i < l.length then l.get ⟨i, h⟩ else []

/-- Model of the `imports` field of `Generator` (`map[string]string`,
alias to package path): an association list; run-to-run iteration order
of the Go map is dealt with where it matters (file assembly). -/
abbrev ImpTable := List (String × String)

/-- Map lookup `g.imports[name]`. -/
def lookupTab (t : ImpTable) (k : String) : Option String :=
  (List.find? (fun e => e.1 == k) t).map (·.2)

/-- Map assignment `g.imports[name] = path` (overwrite or add). -/
def insertTab : ImpTable → String → String → ImpTable
  | [], k, v => [(k, v)]
  | e :: rest, k, v =>
      if e.1 == k then (k, v) :: rest else e :: insertTab rest k v

/-- Model of `importSanitizerRE.ReplaceAllString(path, "_")` with the
pattern `\W`: every character outside `[0-9A-Za-z_]` becomes `_`. -/
def sanitize (s : String) : String :=
  (s.data.map (fun c => if c.isAlphanum || c == '_' then c else '_')).asString

/-- Model of `selToIdent`: drop every `]`, then turn `[` and `.` into
`_`. -/
def selToIdent (sel : String) : String :=
  ((sel.data.filter (fun c => c != ']')).map
    (fun c => if c == '[' || c == '.' then '_' else c)).asString

/-- Suffix after the first `.`, if any. -/
def afterDotAux : List Char → Option (List Char)
  | [] => none
  | c :: rest => if c == '.' then some rest else afterDotAux rest

/-- Model of `sel = sel[strings.Index(sel, ".")+1:]`: everything after
the first dot, or the whole string when it has no dot. -/
def afterFirstDot (s : String) : String :=
  match afterDotAux s.data with
  | some suffixChars => suffixChars.asString
  | none => s

mutual
/-- Model of `Generator.getElemType`: `types.TypeString` with the
qualifier of the source, which returns the empty qualifier for the
context package `x` (and for a nil declaring package), otherwise the
package name — rewritten to the sanitized package path when the alias
is already bound to a different path — and records the alias in the
`imports` table.  The table is threaded left to right in print order. -/
def tyString (x : String) : Ty → ImpTable → String × ImpTable
  | .basic n, t => (n, t)
  | .named pn pp n, t =>
      if pn == "" || pn == x then (n, t)
      else
        let q := match lookupTab t pn with
          | some path => if path != pp then sanitize pp else pn
          | none => pn
        (q ++ "." ++ n, insertTab t q pp)
  | .ptr e, t =>
      let r := tyString x e t
      ("*" ++ r.1, r.2)
  | .slice e, t =>
      let r := tyString x e t
      ("[]" ++ r.1, r.2)
  | .chan e, t =>
      let r := tyString x e t
      ("chan " ++ r.1, r.2)
  | .mp k v, t =>
      let rk := tyString x k t
      let rv := tyString x v rk.2
      ("map[" ++ rk.1 ++ "]" ++ rv.1, rv.2)
  | .strukt fs, t =>
      let r := tyStringFields x fs t
      ("struct\x7b" ++ r.1 ++ "\x7d", r.2)

/-- Struct-field part of the `types.TypeString` model. -/
def tyStringFields (x : String) : Fields → ImpTable → String × ImpTable
  | .nil, t => ("", t)
  | .cons n _ ty rest, t =>
      let r := tyString x ty t
      let rr := tyStringFields x rest r.2
      ((if rr.1 == "" then n ++ " " ++ r.1 else n ++ " " ++ r.1 ++ "; " ++ rr.1),
       rr.2)
end

/-- Result of one walk: the text written to the destination writer, the
number of depth-cutoff diagnostics logged, and the updated `imports`
table.  (`none` means the model's fuel ran out, i.e. the Go recursion
would still be descending.) -/
abbrev Res := String × Nat × ImpTable

/-- Sequence the walk of a struct's fields (the `for i := 0; i <
v.NumFields(); i++` loop): each field is handled by `step`, outputs are
concatenated in declaration order, diagnostics are summed and the
`imports` table is threaded through. -/
def seqFields (step : String → Bool → Ty → ImpTable → Option Res) :
    Fields → ImpTable → Option Res
  | .nil, imp => some ("", 0, imp)
  | .cons n ex ty rest, imp =>
      match step n ex ty imp with
      | none => none
      | some (s, d, imp2) =>
          match seqFields step rest imp2 with
          | none => none
          | some (s2, d2, imp3) => some (s ++ s2, d + d2, imp3)

/-- The key half (and, symmetrically, the value half) of the map case
of `walkType`: when the entry is skipped the range variable itself is
the sink; otherwise the sub-walk `r` runs with `copySink` as sink, and
a non-empty emission switches the insert to the fresh temporary and
prepends its declaration. -/
def mapPart (name copySink kind : String) (skip : Bool)
    (r : ImpTable → Option Res) (imp : ImpTable) :
    Option (String × String × Nat × ImpTable) :=
  if skip then some (name, "", 0, imp)
  else
    match r imp with
    | none => none
    | some (bs, bd, imp2) =>
        if bs != "" then
          some (copySink, "var " ++ copySink ++ " " ++ kind ++ "\n" ++ bs,
                bd, imp2)
        else some (name, "", bd, imp2)

/-- The element sub-walk of the slice case: skipped slices contribute
no loop body (and leave the `imports` table as it stands after the
element type was printed). -/
def sliceInner (skip : Bool) (r : ImpTable → Option Res) (imp : ImpTable) :
    Option Res :=
  if skip then some ("", 0, imp) else r imp

/-- The reuse attempt on a pointee (`v.Elem().(methoder)` plus the
short-circuit `!ok || initial || !g.reuseDeepCopy(..., true, ...)` in
the pointer case): produces the adapted call text when the pointee is a
methoder, the frame is not the root, and the detector finds a reusable
method. -/
def ptrReuse (g : Config) (generating : List Ty) (source sink : String)
    (e : Ty) (ms? : Option (List Method)) (initial : Bool) : Option String :=
  match ms? with
  | some ms =>
      if initial then none
      else
        let r := reuseDeepCopy g generating source sink e ms true
        if r.2 then some r.1 else none
  | none => none

/-- Structural-recursion part of `walkType` (everything after the
`depth++` and `under := m.Underlying()` lines, dispatching on the
underlying shape).  `recur` performs a recursive walk one frame down;
`depth` is the already-incremented depth; `initial` tells whether the
enclosing `walkType` frame was the root call. -/
def walkUnder (g : Config) (env : Env) (generating : List Ty) (x : String)
    (recur : String → String → Ty → ImpTable → Option Res)
    (source sink : String) (u : Ty) (initial ne : Bool)
    (sk : Skips) (depth : Nat) (imp : ImpTable) : Option Res :=
  match u with
  | .strukt fields =>
      seqFields
        (fun fname exported fty im =>
          if ne && !exported then some ("", 0, im)
          else
            let sel := afterFirstDot (sink ++ "." ++ fname)
            if sk.ContainsSel sel then some ("", 0, im)
            else recur (source ++ "." ++ fname) (sink ++ "." ++ fname) fty im)
        fields imp
  | .slice e =>
      let rk := tyString x e imp
      let idx := if depth > 1 then "i" ++ toString depth else "i"
      let sel0 := afterFirstDot "[i]"
      let sel := if initial then sel0 else sink ++ sel0
      let skipSlice := sk.ContainsSel sel
      let head :=
        "if " ++ source ++ " != nil \x7b\n\t" ++ sink ++ " = make([]"
          ++ rk.1 ++ ", len(" ++ source ++ "))\n"
          ++ "copy(" ++ sink ++ ", " ++ source ++ ")\n"
      match sliceInner skipSlice
              (fun im => recur (source ++ "[" ++ idx ++ "]")
                (sink ++ "[" ++ idx ++ "]") e im) rk.2 with
      | none => none
      | some (bs, bd, imp2) =>
          let loop :=
            if bs != "" then
              "    for " ++ idx ++ " := range " ++ source ++ " \x7b\n"
                ++ bs ++ "\x7d\n"
            else ""
          some (head ++ loop ++ "\x7d\n", bd, imp2)
  | .ptr e =>
      let head := "if " ++ source ++ " != nil \x7b\n"
      match ptrReuse g generating source sink e (methodsOf env e) initial with
      | some txt => some (head ++ txt ++ "\x7d\n", 0, imp)
      | none =>
          let rk := tyString x e imp
          match recur source sink e rk.2 with
          | none => none
          | some (bs, bd, imp2) =>
              some (head ++ sink ++ " = new(" ++ rk.1 ++ ")\n\t*" ++ sink
                      ++ " = *" ++ source ++ "\n" ++ bs ++ "\x7d\n",
                    bd, imp2)
  | .chan e =>
      let rk := tyString x e imp
      some ("if " ++ source ++ " != nil \x7b\n\t" ++ sink ++ " = make(chan "
              ++ rk.1 ++ ", cap(" ++ source ++ "))\n\x7d\n",
            0, rk.2)
  | .mp kt vt =>
      let rkk := tyString x kt imp
      let rvk := tyString x vt rkk.2
      let key := if depth > 1 then "k" ++ toString depth else "k"
      let val := if depth > 1 then "v" ++ toString depth else "v"
      let sel1 := if initial then "[k]" else sink ++ "[k]"
      let sel := afterFirstDot sel1
      let skipBoth := sk.ContainsSel sel
      let skipKey := skipBoth
      let skipValue := skipBoth
      let head :=
        "if " ++ source ++ " != nil \x7b\n\t" ++ sink ++ " = make(map["
          ++ rkk.1 ++ "]" ++ rvk.1 ++ ", len(" ++ source ++ "))\n\tfor "
          ++ key ++ ", " ++ val ++ " := range " ++ source ++ " \x7b\n"
      match mapPart key (selToIdent sink ++ "_" ++ key) rkk.1 skipKey
              (fun im => recur key (selToIdent sink ++ "_" ++ key) kt im)
              rvk.2 with
      | none => none
      | some (ksink, ktxt, kd, imp3) =>
          match mapPart val (selToIdent sink ++ "_" ++ val) rvk.1 skipValue
                  (fun im => recur val (selToIdent sink ++ "_" ++ val) vt im)
                  imp3 with
          | none => none
          | some (vsink, vtxt, vd, imp5) =>
              some (head ++ ktxt ++ vtxt ++ sink ++ "[" ++ ksink ++ "] = "
                      ++ vsink ++ "\x7d\n\x7d\n",
                    kd + vd, imp5)
  | _ => some ("", 0, imp)

/-- The depth-cutoff guard of `walkType`:
`g.maxDepth > 0 && depth >= g.maxDepth`. -/
def depthCutoff (g : Config) (depth : Nat) : Bool :=
  decide (0 < g.maxDepth) && decide (g.maxDepth ≤ (depth : Int))

/-- Model of `Generator.walkType`.  Policy order as in the source:
depth cutoff (positive `maxDepth` and `depth >= maxDepth` stop the
walk, logging one diagnostic and writing nothing), then the reuse check
(only for methoder — i.e. named — types and never at the root frame),
then structural recursion on the underlying shape with `depth+1`.
Fuel decreases once per recursive frame; `none` models non-terminating
recursion. -/
def walkType (g : Config) (env : Env) (generating : List Ty) (x : String) :
    Nat → String → String → Ty → Skips → Nat → ImpTable → Option Res
  | 0, _, _, _, _, _, _ => none
  | Nat.succ f, source, sink, m, sk, depth, imp =>
      let initial := depth == 0
      if depthCutoff g depth then some ("", 1, imp)
      else
        let structural : Option Res :=
          walkUnder g env generating x
            (fun src snk ty im =>
              walkType g env generating x f src snk ty sk (depth + 1) im)
            source sink (underlyingOf env m) initial (needExportedOf x m)
            sk (depth + 1) imp
        match methodsOf env m with
        | some ms =>
            let r := reuseDeepCopy g generating source sink m ms false
            if !initial && r.2 then some (r.1, 0, imp) else structural
        | none => structural

/-- Name of an `object` (`obj.Obj().Name()`); the Go `object`
interface is only ever satisfied by named types. -/
def objName : Ty → String
  | .named _ _ n => n
  | _ => ""

/-- Model of `objFromType`: strip at most one `Elem()` indirection and
keep the result only if it is a named type. -/
def objFromType (t : Ty) : Option Ty :=
  match (reducePointer t).1 with
  | .named pn pp n => some (.named pn pp n)
  | _ => none

/-- Model of `exprFilter`: the stripped type must be named, declared in
a non-nil package whose name is the context package `x`, and be called
`sel`. -/
def exprFilter (t : Ty) (sel x : String) : Option Ty :=
  match objFromType t with
  | some (.named pn pp n) =>
      if pn == "" || x != pn || sel != n then none
      else some (.named pn pp n)
  | _ => none

/-- A method declaration carrying a receiver, as seen by the
`recvVarVisitor`: the receiver's type name when the (star-stripped)
receiver type is an identifier, and the receiver variable's name. -/
structure RecvDecl where
  typeName : Option String
  varName : String

/-- One syntax file of the package: whether it carries the
`// Code generated ... DO NOT EDIT.` marker (`isCodeGenerated`), and
its receiver-carrying method declarations in source order. -/
structure SrcFile where
  generated : Bool
  decls : List RecvDecl

/-- The `packages.Package` surface used by `Generate`: package name,
syntax files, and the types of the package's defined objects
(`TypesInfo.Defs`).  `TypesInfo.Defs` is a Go map, whose `range` order
is randomized per run; `defs` records the order one particular run
observes, so a run of the program corresponds to a choice of
permutation of `defs` — exactly as an iteration order of the `imports`
map does for file assembly.  The determinism results quantify over
these permutations. -/
structure Pkg where
  name : String
  srcFiles : List SrcFile
  defs : List Ty

/-- Model of `locateType`: the first defined object passing
`exprFilter` in the run's iteration order of `TypesInfo.Defs` (the
order of `defs`).  Because Go randomizes that order, two runs may
locate different objects whenever more than one defined object passes
`exprFilter` for the same name — see the defs-order counterexample
below. -/
def locateType (kind : String) (p : Pkg) : Option Ty :=
  p.defs.findSome? (fun t => exprFilter t kind p.name)

/-- First-seen-wins insertion of `recvVarVisitor.add`. -/
def addRecv (t : List (String × String)) (k v : String) :
    List (String × String) :=
  if (lookupTab t k).isSome then t else t ++ [(k, v)]

/-- Per-file part of the receiver-name scan: a file recognizable as
generated is skipped entirely; otherwise every receiver-carrying
declaration with an identifier receiver type is recorded first-seen. -/
def collectFile (t : List (String × String)) (f : SrcFile) :
    List (String × String) :=
  if f.generated then t
  else
    f.decls.foldl
      (fun t d =>
        match d.typeName with
        | some k => addRecv t k d.varName
        | none => t) t

/-- Model of `getReceiverNames`: fails when the package exposes no
syntax files at all, otherwise walks every file. -/
def getReceiverNames (p : Pkg) : Except String (List (String × String)) :=
  if p.srcFiles.isEmpty then .error "packages.Package has no Syntax."
  else .ok (p.srcFiles.foldl collectFile [])

/-- Model of `generateFunc`: the method header (comment, signature,
shallow whole-value copy), the walked body (fuel-limited), and the
return statement.  The receiver variable name comes from the receiver
name table, falling back to `o` for a missing or empty entry. -/
def generateFunc (g : Config) (env : Env) (fuel : Nat) (pName : String)
    (rn : List (String × String)) (generating : List Ty) (obj : Ty)
    (sk : Skips) (imp : ImpTable) : Option (String × Nat × ImpTable) :=
  let kind := objName obj
  let ptr := if g.isPtrRecv then "*" else ""
  let source :=
    match lookupTab rn kind with
    | some s => if s == "" then "o" else s
    | none => "o"
  match walkType g env generating pName fuel source "cp" obj sk 0 imp with
  | none => none
  | some (body, d, imp2) =>
      some ("// " ++ g.methodName ++ " generates a deep copy of " ++ ptr
              ++ kind ++ "\nfunc (" ++ source ++ " " ++ ptr ++ kind ++ ") "
              ++ g.methodName ++ "() " ++ ptr ++ kind ++ " \x7b\n\tvar cp "
              ++ kind ++ " = " ++ ptr ++ source ++ "\n"
              ++ body
              ++ (if g.isPtrRecv then "return &cp\n\x7d" else "return cp\n\x7d"),
            d, imp2)

/-- Generate each target type's function in request order, threading
the shared `imports` table; the generating set is the full object list
from the start. -/
def genFns (g : Config) (env : Env) (fuel : Nat) (pName : String)
    (rn : List (String × String)) (generating : List Ty)
    (sl : SkipLists) : List Ty → Nat → ImpTable → List String →
    Option (List String × ImpTable)
  | [], _, imp, acc => some (acc.reverse, imp)
  | obj :: rest, i, imp, acc =>
      match generateFunc g env fuel pName rn generating obj (sl.Get i) imp with
      | none => none
      | some (fn, _, imp2) =>
          genFns g env fuel pName rn generating sl rest (i + 1) imp2 (fn :: acc)

/-- One line of the import block: `"path"` when the path already ends
in the alias, otherwise `alias "path"` (the Go `%q` verb on the plain
package paths at hand is just double quotes). -/
def impLine (e : String × String) : String :=
  if List.isSuffixOf e.1.data e.2.data then "\"" ++ e.2 ++ "\"\n"
  else e.1 ++ " \"" ++ e.2 ++ "\"\n"

/-- Model of the file assembly in `generateFile` before formatting:
generated-file header (with the process arguments joined into `argv`),
package clause, import block in the given iteration order of the
`imports` map (empty table: no block), then every synthesized function
followed by a blank line. -/
def assembleFile (argv pkgName : String) (impOrder : ImpTable)
    (fns : List String) : String :=
  "// Code generated by " ++ argv ++ "; DO NOT EDIT.\n\npackage " ++ pkgName
    ++ "\n\n"
    ++ (if impOrder.isEmpty then ""
        else "import (\n" ++ String.join (impOrder.map impLine) ++ ")\n")
    ++ String.join (fns.map (· ++ "\n\n"))

/-- Hard errors of a generation run (§7 of the spec):`NotFound`,
`MissingSyntax`, and `InvalidOutput` carrying both the formatter's
diagnostic and the raw unformatted text. -/
inductive GenError where
  | notFound (kind pkgName : String)
  | missingSyntax
  | invalidOutput (diag raw : String)
  deriving Repr, DecidableEq

/-- Model of `Generator.Generate`: locate every requested type (first
failure aborts), build the receiver-name table (no syntax aborts),
synthesize one function per target in request order, assemble the file
and hand it to the external formatter `fmtF`; only a formatter success
writes (once) to the destination.  The returned list is the sequence of
chunks written to the destination writer; `none` models a
non-terminating walk. -/
def Generate (g : Config) (env : Env) (fuel : Nat) (argv : String)
    (fmtF : String → Except String String) (sl : SkipLists)
    (typeNames : List String) (p : Pkg) :
    Option (List String × Option GenError) :=
  match typeNames.find? (fun k => (locateType k p).isNone) with
  | some kind => some ([], some (.notFound kind p.name))
  | none =>
      match getReceiverNames p with
      | .error _ => some ([], some .missingSyntax)
      | .ok rn =>
          let objs := typeNames.filterMap (fun k => locateType k p)
          match genFns g env fuel p.name rn objs sl objs 0 [] [] with
          | none => none
          | some (fns, imp) =>
              let raw := assembleFile argv p.name imp fns
              match fmtF raw with
              | .error d => some ([], some (.invalidOutput d raw))
              | .ok b => some ([b], none)

/-- Ordering used by the canonical-form model of the external
formatter: import entries compared by package path, ties broken by
alias. -/
def impLE (a b : String × String) : Bool :=
  decide (a.2 < b.2) || (a.2 == b.2 && decide (a.1 ≤ b.1))

/-- Canonical order of an import table. -/
def sortImportEntries (l : ImpTable) : ImpTable :=
  l.mergeSort impLE

/-- Modelled from the spec: the external formatter (`format.Source`,
§4.6 "pretty-printing/validating the emitted text into a canonical
textual form") is not part of this repository.  On a complete source
file it rewrites the text into canonical gofmt form; for files produced
by `assembleFile` the only non-canonical ingredient is the iteration
order of the import block, which the formatter replaces by the sorted
order of the import specs (`ast.SortImports`), leaving the rest of the
assembled text unchanged. -/
def formatModel (argv pkgName : String) (impOrder : ImpTable)
    (fns : List String) : String :=
  assembleFile argv pkgName (sortImportEntries impOrder) fns

theorem impLE_trans (a b c : String × String) (h1 : impLE a b = true)
    (h2 : impLE b c = true) : impLE a c = true := by
  simp only [impLE, Bool.or_eq_true, Bool.and_eq_true, decide_eq_true_eq,
    beq_iff_eq] at *
  rcases h1 with h1 | ⟨e1, h1⟩ <;> rcases h2 with h2 | ⟨e2, h2⟩
  · exact Or.inl (lt_trans h1 h2)
  · exact Or.inl (e2 ▸ h1)
  · exact Or.inl (e1 ▸ h2)
  · exact Or.inr ⟨e1.trans e2, le_trans h1 h2⟩

theorem impLE_total (a b : String × String) :
    (impLE a b || impLE b a) = true := by
  simp only [impLE, Bool.or_eq_true, Bool.and_eq_true, decide_eq_true_eq,
    beq_iff_eq]
  rcases lt_trichotomy a.2 b.2 with h | h | h
  · tauto
  · rcases le_total a.1 b.1 with h2 | h2
    · exact Or.inl (Or.inr ⟨h, h2⟩)
    · exact Or.inr (Or.inr ⟨h.symm, h2⟩)
  · tauto

theorem impLE_antisymm (a b : String × String) (h1 : impLE a b = true)
    (h2 : impLE b a = true) : a = b := by
  simp only [impLE, Bool.or_eq_true, Bool.and_eq_true, decide_eq_true_eq,
    beq_iff_eq] at *
  rcases h1 with h1 | ⟨e1, h1⟩ <;> rcases h2 with h2 | ⟨e2, h2⟩
  · exact absurd h2 (lt_asymm h1)
  · exact absurd h1 (e2 ▸ lt_irrefl _)
  · exact absurd h2 (e1 ▸ lt_irrefl _)
  · exact Prod.ext (le_antisymm h1 h2) e1

theorem sortImportEntries_perm_eq {o1 o2 : ImpTable} (h : o1.Perm o2) :
    sortImportEntries o1 = sortImportEntries o2 := by
  haveI : IsAntisymm (String × String) (fun a b => impLE a b = true) :=
    ⟨impLE_antisymm⟩
  have hp : (o1.mergeSort impLE).Perm (o2.mergeSort impLE) :=
    ((o1.mergeSort_perm impLE).trans h).trans (o2.mergeSort_perm impLE).symm
  have hs1 : List.Sorted (fun a b => impLE a b = true) (o1.mergeSort impLE) :=
    List.sorted_mergeSort impLE_trans impLE_total o1
  have hs2 : List.Sorted (fun a b => impLE a b = true) (o2.mergeSort impLE) :=
    List.sorted_mergeSort impLE_trans impLE_total o2
  exact List.eq_of_perm_of_sorted hp hs1 hs2

/-- Does `pat` occur as a contiguous run of `s`?  (Used to state, of a
piece of emitted code, that some fragment does or does not appear.) -/
def hasSub (pat : List Char) : List Char → Bool
  | [] => List.isEmpty pat
  | c :: rest => List.isPrefixOf pat (c :: rest) || hasSub pat rest

/-- String face of `hasSub`. -/
def mentionsText (s pat : String) : Bool :=
  hasSub pat.data s.data

/-- A concrete value-receiver configuration (method name `DeepCopy`,
unbounded depth), used by concrete instances below. -/
def demoCfg : Config := ⟨false, "DeepCopy", 0⟩

/-- A concrete named struct type `Inner` with one exported `int` field
and no methods. -/
def demoInner : Ty := .named "pkg" "example.com/pkg" "Inner"

/-- Type graph defining `demoInner`. -/
def demoEnv : Env :=
  [(("pkg", "example.com/pkg", "Inner"),
    ⟨.strukt (.cons "X" true (.basic "int") .nil), []⟩)]

/-- Walk of the map-shaped field type `map[*Inner]*Inner` reached as
field `M` of a target type (source `o.M`, sink `cp.M`, depth 1), under
a given skip set. -/
def demoMapWalk (sk : Skips) : Option Res :=
  walkType demoCfg demoEnv [] "pkg" 6 "o.M" "cp.M"
    (.mp (.ptr demoInner) (.ptr demoInner)) sk 1 []

/-- Emitted code for `demoMapWalk` when the single lookup on `M[k]`
hits: keys and values are both inserted as-is. -/
def sharedMapText : String :=
  "if o.M != nil \x7b\n\tcp.M = make(map[*Inner]*Inner, len(o.M))\n\tfor k2, v2 := range o.M \x7b\ncp.M[k2] = v2\x7d\n\x7d\n"

/-- Emitted code for `demoMapWalk` when the lookup misses: keys and
values are both deep-copied through fresh temporaries. -/
def deepMapText : String :=
  "if o.M != nil \x7b\n\tcp.M = make(map[*Inner]*Inner, len(o.M))\n\tfor k2, v2 := range o.M \x7b\nvar cp_M_k2 *Inner\nif k2 != nil \x7b\ncp_M_k2 = new(Inner)\n\t*cp_M_k2 = *k2\n\x7d\nvar cp_M_v2 *Inner\nif v2 != nil \x7b\ncp_M_v2 = new(Inner)\n\t*cp_M_v2 = *v2\n\x7d\ncp.M[cp_M_k2] = cp_M_v2\x7d\n\x7d\n"

/-- C10: `SkipLists.Get` is total over all indices: in range it
returns the i-th skip set; out of range it returns the zero-value
empty skip set, whose membership test matches no path — so the walk of
a target type beyond the supplied skip lists simply runs with no
skipped subtrees. -/
theorem SkipLists.Get_total (l : SkipLists) (i : Nat) :
    (∀ h : i < l.length, SkipLists.Get l i = l.get ⟨i, h⟩) ∧
    (l.length ≤ i →
      SkipLists.Get l i = [] ∧
      ∀ sel, Skips.ContainsSel (SkipLists.Get l i) sel = false) := by
  constructor
  · intro h
    simp [SkipLists.Get, h]
  · intro h
    have hn : ¬ i < l.length := by omega
    refine ⟨by simp [SkipLists.Get, hn], ?_⟩
    intro sel
    simp [SkipLists.Get, hn, Skips.ContainsSel]

/-- Closed instance of `SkipLists.Get_total`: with two skip lists,
index 0 is served from the list and index 7 yields the empty skip set
matching nothing. -/
theorem SkipLists.Get_total_witness :
    SkipLists.Get [["A"], ["B"]] 0 = ["A"] ∧
    SkipLists.Get [["A"], ["B"]] 7 = [] ∧
    Skips.ContainsSel (SkipLists.Get [["A"], ["B"]] 7) "A" = false := by
  refine ⟨?_, ?_, ?_⟩
  · simpa using (SkipLists.Get_total [["A"], ["B"]] 0).1 (by decide)
  · exact ((SkipLists.Get_total [["A"], ["B"]] 7).2 (by decide)).1
  · exact ((SkipLists.Get_total [["A"], ["B"]] 7).2 (by decide)).2 "A"

/-- C5: a type identical to a member of the generating set makes
`hasDeepCopy` answer `(true, g.isPtrRecv)` — the batch's configured
receiver shape — no matter what the type's own method set contains, so
the generating-set check takes precedence over the method-set scan. -/
theorem hasDeepCopy_generating_precedence (g : Config)
    (generating : List Ty) (v : Ty) (ms : List Method)
    (h : generating.any (fun t => identical v t) = true) :
    hasDeepCopy g generating v ms = (true, g.isPtrRecv) := by
  simp [hasDeepCopy, h]

/-- A method named `DeepCopy` whose result type (`int`) is not the
receiver type: the method-set scan alone would answer
`(false, false)` on it. -/
def mBadRet : Method := ⟨"DeepCopy", true, 0, 1, .basic "int", demoInner⟩

/-- Closed instance of `hasDeepCopy_generating_precedence`: `Inner` is
in the generating set, so the detector answers `(true, false)` (value
receivers configured) even though scanning `mBadRet` would answer
`(false, false)`. -/
theorem hasDeepCopy_generating_precedence_witness :
    hasDeepCopy demoCfg [demoInner] demoInner [mBadRet] = (true, false) := by
  exact hasDeepCopy_generating_precedence demoCfg [demoInner] demoInner
    [mBadRet] (by decide)

theorem mapPart_isSome (name copySink kind : String) (skip : Bool)
    (r : ImpTable → Option Res) (imp : ImpTable)
    (hr : ∀ im, (r im).isSome) :
    (mapPart name copySink kind skip r imp).isSome := by
  unfold mapPart
  split
  · simp
  · cases hs : r imp with
    | none => exact absurd (hs ▸ hr imp) (by simp)
    | some v =>
        obtain ⟨bs, bd, imp2⟩ := v
        dsimp only
        split <;> simp

theorem sliceInner_isSome (skip : Bool) (r : ImpTable → Option Res)
    (imp : ImpTable) (hr : ∀ im, (r im).isSome) :
    (sliceInner skip r imp).isSome := by
  unfold sliceInner
  split
  · simp
  · exact hr imp

theorem seqFields_isSome (step : String → Bool → Ty → ImpTable → Option Res)
    (hstep : ∀ n ex ty im, (step n ex ty im).isSome) :
    ∀ (fs : Fields) (imp : ImpTable), (seqFields step fs imp).isSome
  | .nil, imp => by simp [seqFields]
  | .cons n ex ty rest, imp => by
      simp only [seqFields]
      cases hs : step n ex ty imp with
      | none => exact absurd (hs ▸ hstep n ex ty imp) (by simp)
      | some r =>
          obtain ⟨s1, d1, imp3⟩ := r
          dsimp only
          cases hr : seqFields step rest imp3 with
          | none =>
              exact absurd (hr ▸ seqFields_isSome step hstep rest imp3)
                (by simp)
          | some r2 => simp

theorem walkUnder_isSome (g : Config) (env : Env) (generating : List Ty)
    (x : String) (recur : String → String → Ty → ImpTable → Option Res)
    (source sink : String) (u : Ty) (initial ne : Bool) (sk : Skips)
    (depth : Nat) (imp : ImpTable)
    (hrec : ∀ src snk ty im, (recur src snk ty im).isSome) :
    (walkUnder g env generating x recur source sink u initial ne sk depth
      imp).isSome := by
  cases u with
  | strukt fields =>
      simp only [walkUnder]
      apply seqFields_isSome
      intro n ex ty im
      split
      · simp
      · split
        · simp
        · exact hrec _ _ _ _
  | slice e =>
      simp only [walkUnder]
      split
      · rename_i heq
        exact absurd (heq ▸ sliceInner_isSome _ _ _ (fun im => hrec _ _ _ _))
          (by simp)
      · simp
  | ptr e =>
      simp only [walkUnder]
      split
      · simp
      · split
        · rename_i heq
          exact absurd (heq ▸ hrec _ _ _ _) (by simp)
        · simp
  | chan e => simp [walkUnder]
  | mp kt vt =>
      simp only [walkUnder]
      split
      · rename_i heq
        exact absurd
          (heq ▸ mapPart_isSome _ _ _ _ _ _ (fun im => hrec _ _ _ _)) (by simp)
      · split
        · rename_i heq2
          exact absurd
            (heq2 ▸ mapPart_isSome _ _ _ _ _ _ (fun im => hrec _ _ _ _))
            (by simp)
        · simp
  | basic n => simp [walkUnder]
  | named pn pp n => simp [walkUnder]

/-- C4: with a positive configured maximum depth the walk terminates on
every type graph, cyclic graphs included: depth rises by exactly one
per structural descent, so `maxDepth - depth` bounds the remaining
recursion and fuel beyond that bound is never exhausted
(`isSome`, never the fuel-ran-out `none`). -/
theorem walk_terminates_under_max_depth (g : Config) (env : Env)
    (generating : List Ty) (x : String) :
    ∀ (fuel : Nat) (source sink : String) (m : Ty) (sk : Skips)
      (depth : Nat) (imp : ImpTable),
      0 < g.maxDepth → (depth : Int) ≤ g.maxDepth →
      g.maxDepth < (depth : Int) + (fuel : Int) →
      (walkType g env generating x fuel source sink m sk depth
        imp).isSome := by
  intro fuel
  induction fuel with
  | zero =>
      intro source sink m sk depth imp hpos hdep hfuel
      exfalso
      push_cast at hfuel
      omega
  | succ f ih =>
      intro source sink m sk depth imp hpos hdep hfuel
      simp only [walkType]
      by_cases hc : depthCutoff g depth = true
      · simp [hc]
      · rw [Bool.not_eq_true] at hc
        have hdlt : (depth : Int) < g.maxDepth := by
          simp only [depthCutoff, Bool.and_eq_false_iff, decide_eq_false_iff_not,
            not_lt, not_le] at hc
          rcases hc with h | h
          · omega
          · exact h
        have hrec : ∀ src snk ty im,
            (walkType g env generating x f src snk ty sk (depth + 1)
              im).isSome := by
          intro src snk ty im
          apply ih src snk ty sk (depth + 1) im hpos
          · push_cast
            omega
          · push_cast
            push_cast at hfuel
            omega
        rw [hc]
        simp only [Bool.false_eq_true, if_false]
        cases hm : methodsOf env m with
        | none => exact walkUnder_isSome _ _ _ _ _ _ _ _ _ _ _ _ _ hrec
        | some ms =>
            dsimp only
            split
            · simp
            · exact walkUnder_isSome _ _ _ _ _ _ _ _ _ _ _ _ _ hrec

theorem mapPart_diag_zero (name copySink kind : String) (skip : Bool)
    (r : ImpTable → Option Res) (imp : ImpTable)
    (hr : ∀ im s d im2, r im = some (s, d, im2) → d = 0) :
    ∀ ks kt kd imp2,
      mapPart name copySink kind skip r imp = some (ks, kt, kd, imp2) →
      kd = 0 := by
  intro ks kt kd imp2 h
  unfold mapPart at h
  split at h
  · simp at h
    omega
  · cases hs : r imp with
    | none => rw [hs] at h; simp at h
    | some v =>
        obtain ⟨bs, bd, imp3⟩ := v
        rw [hs] at h
        dsimp only at h
        have hbd : bd = 0 := hr imp bs bd imp3 hs
        split at h <;> simp_all

theorem sliceInner_diag_zero (skip : Bool) (r : ImpTable → Option Res)
    (imp : ImpTable)
    (hr : ∀ im s d im2, r im = some (s, d, im2) → d = 0) :
    ∀ s d imp2, sliceInner skip r imp = some (s, d, imp2) → d = 0 := by
  intro s d imp2 h
  unfold sliceInner at h
  split at h
  · simp at h
    omega
  · exact hr imp s d imp2 h

theorem seqFields_diag_zero (step : String → Bool → Ty → ImpTable → Option Res)
    (hstep : ∀ n ex ty im s d im2, step n ex ty im = some (s, d, im2) → d = 0) :
    ∀ (fs : Fields) (imp : ImpTable) (s : String) (d : Nat) (imp2 : ImpTable),
      seqFields step fs imp = some (s, d, imp2) → d = 0
  | .nil, imp, s, d, imp2 => by
      intro h
      simp [seqFields] at h
      omega
  | .cons n ex ty rest, imp, s, d, imp2 => by
      intro h
      simp only [seqFields] at h
      cases hs : step n ex ty imp with
      | none => rw [hs] at h; simp at h
      | some r =>
          obtain ⟨s1, d1, imp3⟩ := r
          rw [hs] at h
          dsimp only at h
          cases hr : seqFields step rest imp3 with
          | none => rw [hr] at h; simp at h
          | some r2 =>
              obtain ⟨s2, d2, imp4⟩ := r2
              rw [hr] at h
              dsimp only at h
              have h1 : d1 = 0 := hstep n ex ty imp s1 d1 imp3 hs
              have h2 : d2 = 0 :=
                seqFields_diag_zero step hstep rest imp3 s2 d2 imp4 hr
              simp at h
              omega

theorem walkUnder_diag_zero (g : Config) (env : Env) (generating : List Ty)
    (x : String) (recur : String → String → Ty → ImpTable → Option Res)
    (source sink : String) (u : Ty) (initial ne : Bool) (sk : Skips)
    (depth : Nat) (imp : ImpTable)
    (hrec : ∀ src snk ty im s d im2,
      recur src snk ty im = some (s, d, im2) → d = 0) :
    ∀ s d imp2,
      walkUnder g env generating x recur source sink u initial ne sk depth
        imp = some (s, d, imp2) → d = 0 := by
  intro s d imp2 h
  cases u with
  | strukt fields =>
      simp only [walkUnder] at h
      refine seqFields_diag_zero _ ?_ fields imp s d imp2 h
      intro n ex ty im s1 d1 im2 hstep
      revert hstep
      split
      · intro hstep; simp at hstep; omega
      · split
        · intro hstep; simp at hstep; omega
        · intro hstep; exact hrec _ _ _ _ _ _ _ hstep
  | slice e =>
      simp only [walkUnder] at h
      cases hs : sliceInner (sk.ContainsSel
          (if initial then afterFirstDot "[i]"
           else sink ++ afterFirstDot "[i]"))
          (fun im => recur
            (source ++ "[" ++ (if depth > 1 then "i" ++ toString depth else "i") ++ "]")
            (sink ++ "[" ++ (if depth > 1 then "i" ++ toString depth else "i") ++ "]")
            e im) (tyString x e imp).2 with
      | none => rw [hs] at h; simp at h
      | some v =>
          obtain ⟨bs, bd, imp3⟩ := v
          rw [hs] at h
          dsimp only at h
          have hbd : bd = 0 :=
            sliceInner_diag_zero _ _ _ (fun im s1 d1 im2 hh => hrec _ _ _ _ _ _ _ hh)
              bs bd imp3 hs
          simp at h
          omega
  | ptr e =>
      simp only [walkUnder] at h
      split at h
      · simp at h
        omega
      · cases hs : recur source sink e (tyString x e imp).2 with
        | none => rw [hs] at h; simp at h
        | some v =>
            obtain ⟨bs, bd, imp3⟩ := v
            rw [hs] at h
            dsimp only at h
            have hbd : bd = 0 := hrec _ _ _ _ _ _ _ hs
            simp at h
            omega
  | chan e =>
      simp only [walkUnder] at h
      simp at h
      omega
  | mp kt vt =>
      simp only [walkUnder] at h
      split at h
      · simp at h
      · rename_i ks ktxt kd imp3 heqk
        split at h
        · simp at h
        · rename_i vs vtxt vd imp4 heqv
          have hk : kd = 0 :=
            mapPart_diag_zero _ _ _ _ _ _
              (fun im s1 d1 im2 hh => hrec _ _ _ _ _ _ _ hh) ks ktxt kd imp3 heqk
          have hv : vd = 0 :=
            mapPart_diag_zero _ _ _ _ _ _
              (fun im s1 d1 im2 hh => hrec _ _ _ _ _ _ _ hh) vs vtxt vd imp4 heqv
          simp at h
          omega
  | basic n =>
      simp only [walkUnder] at h
      simp at h
      omega
  | named pn pp n =>
      simp only [walkUnder] at h
      simp at h
      omega

theorem walkType_diag_zero (g : Config) (env : Env) (generating : List Ty)
    (x : String) (hz : g.maxDepth = 0) :
    ∀ (fuel : Nat) (source sink : String) (m : Ty) (sk : Skips)
      (depth : Nat) (imp : ImpTable) (s : String) (n : Nat) (imp2 : ImpTable),
      walkType g env generating x fuel source sink m sk depth imp =
        some (s, n, imp2) → n = 0 := by
  intro fuel
  induction fuel with
  | zero =>
      intro source sink m sk depth imp s n imp2 h
      simp [walkType] at h
  | succ f ih =>
      intro source sink m sk depth imp s n imp2 h
      simp only [walkType] at h
      have hc : depthCutoff g depth = false := by
        simp [depthCutoff, hz]
      rw [hc] at h
      simp only [Bool.false_eq_true, if_false] at h
      cases hm : methodsOf env m with
      | none =>
          rw [hm] at h
          dsimp only at h
          exact walkUnder_diag_zero g env generating x _ source sink _ _ _ sk
            (depth + 1) imp (fun src snk ty im s1 d1 im2 hh =>
              ih src snk ty sk (depth + 1) im s1 d1 im2 hh) s n imp2 h
      | some ms =>
          rw [hm] at h
          dsimp only at h
          split at h
          · simp at h
            omega
          · exact walkUnder_diag_zero g env generating x _ source sink _ _ _ sk
              (depth + 1) imp (fun src snk ty im s1 d1 im2 hh =>
                ih src snk ty sk (depth + 1) im s1 d1 im2 hh) s n imp2 h

/-- A pointer-receiver-free configuration with `maxDepth = 3`. -/
def cfg3 : Config := ⟨false, "DeepCopy", 3⟩

/-- Named type `A` of the mutually-referential pair. -/
def tyA : Ty := .named "pkg" "example.com/pkg" "A"

/-- Named type `B` of the mutually-referential pair. -/
def tyB : Ty := .named "pkg" "example.com/pkg" "B"

/-- Cyclic type graph `A \x7b next *B \x7d`, `B \x7b next *A \x7d`. -/
def cycEnv : Env :=
  [(("pkg", "example.com/pkg", "A"),
    ⟨.strukt (.cons "next" true (.ptr tyB) .nil), []⟩),
   (("pkg", "example.com/pkg", "B"),
    ⟨.strukt (.cons "next" true (.ptr tyA) .nil), []⟩)]

/-- Target type `T \x7b a *A \x7d` referencing the cyclic pair. -/
def tyT : Ty := .named "pkg" "example.com/pkg" "T"

/-- Type graph with `T` on top of the cyclic pair `A`/`B`. -/
def cycEnvT : Env :=
  (("pkg", "example.com/pkg", "T"),
    (⟨.strukt (.cons "a" true (.ptr tyA) .nil), []⟩ : TyDef)) :: cycEnv

/-- Closed instance of `walk_terminates_under_max_depth`: walking the
requested type `T` (generating set `[T]`) into the cyclic pair `A`/`B`
with `maxDepth = 3` terminates, and (by direct evaluation) it truncates
at the cutoff, leaving the deeper pointers aliased by the shallow copy
and logging exactly one diagnostic. -/
theorem walk_terminates_under_max_depth_witness :
    (walkType cfg3 cycEnvT [tyT] "pkg" 5 "o" "cp" tyT [] 0 []).isSome
      = true ∧
    walkType cfg3 cycEnvT [tyT] "pkg" 5 "o" "cp" tyT [] 0 [] =
      some ("if o.a != nil \x7b\ncp.a = new(A)\n\t*cp.a = *o.a\n\x7d\n",
            1, []) := by
  refine ⟨?_, by decide⟩
  exact walk_terminates_under_max_depth cfg3 cycEnvT [tyT] "pkg" 5 "o" "cp"
    tyT [] 0 [] (by decide) (by decide) (by decide)

/-- C3: the depth-cutoff policy.  First conjunct: with a positive
configured maximum and `depth ≥ maxDepth`, a walk frame returns at
once, emitting no code, leaving the `imports` table untouched, and
logging exactly one diagnostic.  Second conjunct: with `maxDepth = 0`
the cutoff is never taken at any depth — every terminating walk logs
zero diagnostics. -/
theorem depth_cutoff_policy :
    (∀ (g : Config) (env : Env) (generating : List Ty) (x : String)
       (f : Nat) (source sink : String) (m : Ty) (sk : Skips)
       (depth : Nat) (imp : ImpTable),
       0 < g.maxDepth → g.maxDepth ≤ (depth : Int) →
       walkType g env generating x (Nat.succ f) source sink m sk depth imp =
         some ("", 1, imp)) ∧
    (∀ (g : Config) (env : Env) (generating : List Ty) (x : String)
       (fuel : Nat) (source sink : String) (m : Ty) (sk : Skips)
       (depth : Nat) (imp : ImpTable) (s : String) (n : Nat)
       (imp2 : ImpTable),
       g.maxDepth = 0 →
       walkType g env generating x fuel source sink m sk depth imp =
         some (s, n, imp2) → n = 0) := by
  constructor
  · intro g env generating x f source sink m sk depth imp h1 h2
    have hc : depthCutoff g depth = true := by
      simp only [depthCutoff, Bool.and_eq_true, decide_eq_true_eq]
      exact ⟨h1, h2⟩
    simp [walkType, hc]
  · intro g env generating x fuel source sink m sk depth imp s n imp2 hz h
    exact walkType_diag_zero g env generating x hz fuel source sink m sk
      depth imp s n imp2 h

/-- Closed instance of `depth_cutoff_policy`: a frame at depth 5 under
`maxDepth = 3` emits nothing and logs one diagnostic; under
`maxDepth = 0` the fully deep map walk of the demo environment logged
zero diagnostics. -/
theorem depth_cutoff_policy_witness :
    walkType cfg3 cycEnv [] "pkg" 1 "o.x" "cp.x" tyA [] 5 [] =
      some ("", 1, []) ∧
    demoMapWalk [] =
      some (deepMapText, 0, []) ∧ (0 : Nat) = 0 := by
  refine ⟨?_, by decide, ?_⟩
  · exact depth_cutoff_policy.1 cfg3 cycEnv [] "pkg" 0 "o.x" "cp.x" tyA [] 5
      [] (by decide) (by decide)
  · exact depth_cutoff_policy.2 demoCfg demoEnv [] "pkg" 6 "o.M" "cp.M"
      (.mp (.ptr demoInner) (.ptr demoInner)) [] 1 [] deepMapText 0 [] rfl
      (by decide)

/-- C8: a channel-shaped type reached by the walk (and not cut off by
depth) always emits exactly the replacement of the sink by a newly
allocated channel of the same element type and the source's capacity;
the emission is the full output — nothing else, in particular no
transfer of buffered contents, is emitted. -/
theorem walkType_chan_replaces (g : Config) (env : Env)
    (generating : List Ty) (x : String) (f : Nat) (source sink : String)
    (e : Ty) (sk : Skips) (depth : Nat) (imp : ImpTable)
    (hcut : depthCutoff g depth = false) :
    walkType g env generating x (Nat.succ f) source sink (.chan e) sk depth
      imp =
      some ("if " ++ source ++ " != nil \x7b\n\t" ++ sink ++ " = make(chan "
              ++ (tyString x e imp).1 ++ ", cap(" ++ source ++ "))\n\x7d\n",
            0, (tyString x e imp).2) := by
  simp [walkType, hcut, methodsOf, underlyingOf, walkUnder]

/-- Closed instance of `walkType_chan_replaces`: the emitted text for a
`chan int` field contains no receive/send arrow and no range loop —
buffered contents are not transferred — while the capacity is taken
from the source channel. -/
theorem walkType_chan_replaces_witness :
    walkType demoCfg demoEnv [] "pkg" 5 "o.C" "cp.C" (.chan (.basic "int"))
      [] 1 [] =
      some ("if o.C != nil \x7b\n\tcp.C = make(chan int, cap(o.C))\n\x7d\n",
            0, []) ∧
    mentionsText
      "if o.C != nil \x7b\n\tcp.C = make(chan int, cap(o.C))\n\x7d\n" "<-"
      = false ∧
    mentionsText
      "if o.C != nil \x7b\n\tcp.C = make(chan int, cap(o.C))\n\x7d\n" "range"
      = false ∧
    mentionsText
      "if o.C != nil \x7b\n\tcp.C = make(chan int, cap(o.C))\n\x7d\n" "cap("
      = true := by
  refine ⟨?_, by decide, by decide, by decide⟩
  exact walkType_chan_replaces demoCfg demoEnv [] "pkg" 4 "o.C" "cp.C"
    (.basic "int") [] 1 [] (by decide)

/-- A method that the scan in `hasDeepCopy` accepts: configured name, a
signature, zero parameters, one result, and result type identical to
the receiver type after `reducePointer` on each. -/
def sigMatch (g : Config) (m : Method) : Bool :=
  m.name == g.methodName && m.isSig && (m.params == 0 && m.results == 1) &&
    identical (reducePointer m.retType).1 (reducePointer m.recvType).1

theorem scanMethods_semantics (g : Config) :
    ∀ ms : List Method,
      (ms.filter (fun m => m.name == g.methodName)).length ≤ 1 →
      scanMethods g ms =
        (match ms.find? (sigMatch g) with
         | some m => (true, (reducePointer m.retType).2)
         | none => (false, false)) := by
  intro ms
  induction ms with
  | nil => intro h; simp [scanMethods]
  | cons m rest ih =>
      intro huniq
      by_cases h1 : m.name = g.methodName
      · -- the method carries the configured name; no other one in rest does
        have hrestempty :
            (rest.filter (fun m => m.name == g.methodName)) = [] := by
          rw [List.filter_cons] at huniq
          simp only [h1, beq_self_eq_true, if_true, List.length_cons] at huniq
          exact List.length_eq_zero.mp (by omega)
        have hrestnone : rest.find? (sigMatch g) = none := by
          rw [List.find?_eq_none]
          intro a ha
          intro hc
          simp only [sigMatch, Bool.and_eq_true, beq_iff_eq] at hc
          have : a ∈ rest.filter (fun m => m.name == g.methodName) :=
            List.mem_filter.mpr ⟨ha, by simp [hc.1.1.1]⟩
          simp [hrestempty] at this
        have hrestscan : scanMethods g rest = (false, false) := by
          rw [ih (by simp [hrestempty])]
          rw [hrestnone]
        by_cases h2 : m.isSig = true
        · by_cases hp : m.params = 0
          · by_cases hr : m.results = 1
            · by_cases h4 : identical (reducePointer m.retType).1
                  (reducePointer m.recvType).1 = true
              · have hs : sigMatch g m = true := by
                  simp [sigMatch, h1, h2, hp, hr, h4]
                rw [List.find?_cons_of_pos _ hs]
                simp [scanMethods, h1, h2, hp, hr, h4]
              · rw [Bool.not_eq_true] at h4
                have hs : ¬ sigMatch g m = true := by
                  simp [sigMatch, h4]
                rw [List.find?_cons_of_neg _ hs, hrestnone]
                simp [scanMethods, h1, h2, hp, hr, h4]
            · have hs : ¬ sigMatch g m = true := by
                simp only [sigMatch, Bool.and_eq_true, beq_iff_eq]
                intro hc
                exact hr hc.1.2.2
              rw [List.find?_cons_of_neg _ hs, hrestnone]
              simp [scanMethods, h1, h2, hp, hr, hrestscan]
          · have hs : ¬ sigMatch g m = true := by
              simp only [sigMatch, Bool.and_eq_true, beq_iff_eq]
              intro hc
              exact hp hc.1.2.1
            rw [List.find?_cons_of_neg _ hs, hrestnone]
            simp [scanMethods, h1, h2, hp, hrestscan]
        · rw [Bool.not_eq_true] at h2
          have hs : ¬ sigMatch g m = true := by
            simp only [sigMatch, Bool.and_eq_true, beq_iff_eq]
            intro hc
            rw [h2] at hc
            exact absurd hc.1.1.2 (by simp)
          rw [List.find?_cons_of_neg _ hs, hrestnone]
          simp [scanMethods, h1, h2, hrestscan]
      · have hs : ¬ sigMatch g m = true := by
          simp only [sigMatch, Bool.and_eq_true, beq_iff_eq]
          intro hc
          exact h1 hc.1.1.1
        rw [List.find?_cons_of_neg _ hs]
        have hscan : scanMethods g (m :: rest) = scanMethods g rest := by
          simp [scanMethods, h1]
        rw [hscan]
        apply ih
        rw [List.filter_cons] at huniq
        simp only [beq_iff_eq, h1, if_false] at huniq
        simpa using huniq

/-- C2: with the generating-set check not applying, the detector's
answer is exactly "first signature-matching method wins": any method
with the configured name but a non-matching signature is passed over
without becoming a positive or negative decision for the whole scan,
the first signature-matching method yields `(true, resultIsPointer)`,
and if none matches the answer is `(false, false)`.  The hypothesis
`huniq` states the Go invariant that a method set contains at most one
method with any given name; under it the one code path that answers
`(false, false)` early (configured name, zero parameters, one result,
but result type not identical to the receiver) coincides with letting
the scan run on, since no second method of that name can follow. -/
theorem hasDeepCopy_scan_first_match (g : Config) (generating : List Ty)
    (v : Ty) (ms : List Method)
    (hg : generating.any (fun t => identical v t) = false)
    (huniq : (ms.filter (fun m => m.name == g.methodName)).length ≤ 1) :
    hasDeepCopy g generating v ms =
      (match ms.find? (sigMatch g) with
       | some m => (true, (reducePointer m.retType).2)
       | none => (false, false)) := by
  rw [hasDeepCopy, if_neg (by simp [hg])]
  exact scanMethods_semantics g ms huniq

/-- A zero-parameter single-result method named `Clone`: not the
configured name, so the scan passes over it. -/
def mOther : Method := ⟨"Clone", true, 0, 1, .ptr demoInner, demoInner⟩

/-- A signature-matching `DeepCopy` method returning `*Inner` on
receiver `Inner`. -/
def mGood : Method := ⟨"DeepCopy", true, 0, 1, .ptr demoInner, demoInner⟩

/-- A `DeepCopy` method with one parameter: the configured name but a
non-matching signature. -/
def mWrongCount : Method := ⟨"DeepCopy", true, 1, 1, .ptr demoInner, demoInner⟩

/-- Closed instance of `hasDeepCopy_scan_first_match`: a differently
named method is passed over and the first signature-matching method
answers `(true, true)` (pointer result); a lone name-matching method
with the wrong parameter count leaves the detector at
`(false, false)`. -/
theorem hasDeepCopy_scan_first_match_witness :
    hasDeepCopy demoCfg [] demoInner [mOther, mGood] = (true, true) ∧
    hasDeepCopy demoCfg [] demoInner [mWrongCount] = (false, false) := by
  constructor
  · rw [hasDeepCopy_scan_first_match demoCfg [] demoInner [mOther, mGood]
      (by decide) (by decide)]
    decide
  · rw [hasDeepCopy_scan_first_match demoCfg [] demoInner [mWrongCount]
      (by decide) (by decide)]
    decide

/-- C1 counterexample: the map case consults the Skip Set through one
single lookup.  For `map[*Inner]*Inner` under field `M`, the only
key-indexed path is `M[k]`; with the skip set containing exactly that
path, the emitted code inserts `cp.M[k2] = v2` with no deep copy of
the values (no `cp_M_v2` temporary appears), while with an empty skip
set both key and value are deep-copied — so a skip entry covering the
key path does not leave "values deep-copied, keys shared", refuting
the claimed independent key-path/value-path lookups. -/
theorem map_skip_independence_counterexample :
    demoMapWalk ["M[k]"] = some (sharedMapText, 0, []) ∧
    mentionsText sharedMapText "cp_M_v2" = false ∧
    mentionsText sharedMapText "cp_M_k2" = false ∧
    demoMapWalk [] = some (deepMapText, 0, []) ∧
    mentionsText deepMapText "cp_M_v2" = true ∧
    mentionsText deepMapText "cp_M_k2" = true := by
  refine ⟨by decide, by decide, by decide, by decide, by decide, by decide⟩

/-- C1 amended: in the map case the walker performs a single Skip Set
lookup on the root-relative key-indexed path (`sink + "[k]"`, `"[k]"`
at the root); when it hits, the key and the value are skipped
together — the entry is inserted as-is with the range variables,
nothing of the key or value sub-walks (`recur`) influences the output,
and zero diagnostics are produced.  Together with the deep-copy shape
shown in the counterexample for a missing entry, key and value can
never be skipped independently. -/
theorem mapWalk_single_lookup_governs_both
    (g : Config) (env : Env) (generating : List Ty) (x : String)
    (recur : String → String → Ty → ImpTable → Option Res)
    (source sink : String) (kt vt : Ty) (initial ne : Bool)
    (sk : Skips) (depth : Nat) (imp : ImpTable)
    (h : sk.ContainsSel
      (afterFirstDot (if initial then "[k]" else sink ++ "[k]")) = true) :
    walkUnder g env generating x recur source sink (.mp kt vt) initial ne sk
      depth imp =
      some ("if " ++ source ++ " != nil \x7b\n\t" ++ sink ++ " = make(map["
              ++ (tyString x kt imp).1 ++ "]"
              ++ (tyString x vt (tyString x kt imp).2).1 ++ ", len("
              ++ source ++ "))\n\tfor "
              ++ (if depth > 1 then "k" ++ toString depth else "k") ++ ", "
              ++ (if depth > 1 then "v" ++ toString depth else "v")
              ++ " := range " ++ source ++ " \x7b\n" ++ sink ++ "["
              ++ (if depth > 1 then "k" ++ toString depth else "k")
              ++ "] = "
              ++ (if depth > 1 then "v" ++ toString depth else "v")
              ++ "\x7d\n\x7d\n",
            0, (tyString x vt (tyString x kt imp).2).2) := by
  simp only [walkUnder]
  simp [mapPart, h]

/-- Closed instance of `mapWalk_single_lookup_governs_both` at the
demo map type, reproducing the shared-insert text. -/
theorem mapWalk_single_lookup_governs_both_witness :
    walkUnder demoCfg demoEnv [] "pkg"
      (fun src snk ty im =>
        walkType demoCfg demoEnv [] "pkg" 5 src snk ty ["M[k]"] 2 im)
      "o.M" "cp.M" (.mp (.ptr demoInner) (.ptr demoInner)) false false
      ["M[k]"] 2 [] = some (sharedMapText, 0, []) := by
  rw [mapWalk_single_lookup_governs_both demoCfg demoEnv [] "pkg"
    (fun src snk ty im =>
      walkType demoCfg demoEnv [] "pkg" 5 src snk ty ["M[k]"] 2 im)
    "o.M" "cp.M" (.ptr demoInner) (.ptr demoInner) false false
    ["M[k]"] 2 [] (by decide)]
  decide

/-- C6: the reuse policy of the walker.  (1) At the very root call
(depth 0) the reuse check is bypassed unconditionally: the frame equals
the plain structural dispatch whatever the type's method set says.
(2) At any non-root, non-cutoff frame on a methoder (named) type with a
positive detector answer, the frame emits exactly the adapted call and
recurses no further (the `imports` table is untouched, no diagnostics).
(3) The pointer case at a non-root frame with a positive detector
answer on the pointee emits the nil-guard around the adapted call with
a pointer wanted, ignoring the recursive walker entirely.  (4) The four
pointer/value combinations of the adapter: direct assign when shapes
agree, store-and-take-address when a pointer is wanted from a value
result, dereference-into-sink when a value is wanted from a pointer
result. -/
theorem reuse_check_policy :
    (∀ (g : Config) (env : Env) (generating : List Ty) (x : String)
       (f : Nat) (source sink : String) (m : Ty) (sk : Skips)
       (imp : ImpTable),
       walkType g env generating x (Nat.succ f) source sink m sk 0 imp =
         walkUnder g env generating x
           (fun src snk ty im =>
             walkType g env generating x f src snk ty sk 1 im)
           source sink (underlyingOf env m) true (needExportedOf x m) sk 1
           imp) ∧
    (∀ (g : Config) (env : Env) (generating : List Ty) (x : String)
       (f : Nat) (source sink : String) (m : Ty) (sk : Skips)
       (depth : Nat) (imp : ImpTable) (ms : List Method) (ip : Bool),
       depth ≠ 0 → depthCutoff g depth = false →
       methodsOf env m = some ms →
       hasDeepCopy g generating m ms = (true, ip) →
       walkType g env generating x (Nat.succ f) source sink m sk depth imp =
         some (adaptCall g.methodName source sink false ip, 0, imp)) ∧
    (∀ (g : Config) (env : Env) (generating : List Ty) (x : String)
       (recur : String → String → Ty → ImpTable → Option Res)
       (source sink : String) (e : Ty) (ne : Bool) (sk : Skips)
       (depth : Nat) (imp : ImpTable) (ms : List Method) (ip : Bool),
       methodsOf env e = some ms →
       hasDeepCopy g generating e ms = (true, ip) →
       walkUnder g env generating x recur source sink (.ptr e) false ne sk
         depth imp =
         some ("if " ++ source ++ " != nil \x7b\n"
                 ++ adaptCall g.methodName source sink true ip ++ "\x7d\n",
               0, imp)) ∧
    (∀ mn s k, adaptCall mn s k true true =
       k ++ " = " ++ s ++ "." ++ mn ++ "()\n") ∧
    (∀ mn s k, adaptCall mn s k false false =
       k ++ " = " ++ s ++ "." ++ mn ++ "()\n") ∧
    (∀ mn s k, adaptCall mn s k true false =
       "retV := " ++ s ++ "." ++ mn ++ "()\n\t" ++ k ++ " = &retV\n") ∧
    (∀ mn s k, adaptCall mn s k false true =
       "\x7b\n\tretV := " ++ s ++ "." ++ mn ++ "()\n\t" ++ k
         ++ " = *retV\n\x7d\n") := by
  refine ⟨?_, ?_, ?_, ?_, ?_, ?_, ?_⟩
  · intro g env generating x f source sink m sk imp
    have hc : depthCutoff g 0 = false := by
      simp only [depthCutoff]
      simp only [Nat.cast_zero]
      rw [Bool.and_eq_false_iff]
      by_cases hm : 0 < g.maxDepth
      · right
        simp
        omega
      · left
        simp [hm]
    simp only [walkType, hc]
    simp only [Bool.false_eq_true, if_false]
    cases hm : methodsOf env m with
    | none => rfl
    | some ms => simp
  · intro g env generating x f source sink m sk depth imp ms ip hd hcut hm hh
    have hinit : (depth == 0) = false := by simpa using hd
    simp only [walkType, hcut, Bool.false_eq_true, if_false, hm, hinit]
    simp [reuseDeepCopy, hh]
  · intro g env generating x recur source sink e ne sk depth imp ms ip hm hh
    simp only [walkUnder, ptrReuse, hm]
    simp [reuseDeepCopy, hh]
  · intro mn s k; simp [adaptCall]
  · intro mn s k; simp [adaptCall]
  · intro mn s k; simp [adaptCall]
  · intro mn s k; simp [adaptCall]

/-- Named type `HasCopy` carrying a hand-written reusable method. -/
def tyHC : Ty := .named "pkg" "example.com/pkg" "HasCopy"

/-- A `DeepCopy` method on `HasCopy` returning `*HasCopy`. -/
def mHC : Method := ⟨"DeepCopy", true, 0, 1, .ptr tyHC, tyHC⟩

/-- Type graph defining `HasCopy` with its method. -/
def hcEnv : Env :=
  [(("pkg", "example.com/pkg", "HasCopy"),
    ⟨.strukt (.cons "X" true (.basic "int") .nil), [mHC]⟩)]

/-- Closed instance of `reuse_check_policy`: at the root, `HasCopy` is
walked structurally (empty emission for its basic field) despite its
reusable method; at depth 1 the same type emits the
value-from-pointer-result adaptation; a pointer to it at depth 2 emits
the nil-guarded direct assignment even with a recursive walker that
would diverge (`none`). -/
theorem reuse_check_policy_witness :
    walkType demoCfg hcEnv [] "pkg" 5 "o" "cp" tyHC [] 0 [] =
      some ("", 0, []) ∧
    walkType demoCfg hcEnv [] "pkg" 5 "o.F" "cp.F" tyHC [] 1 [] =
      some ("\x7b\n\tretV := o.F.DeepCopy()\n\tcp.F = *retV\n\x7d\n", 0, []) ∧
    walkUnder demoCfg hcEnv [] "pkg" (fun _ _ _ _ => none) "o.P" "cp.P"
      (.ptr tyHC) false false [] 2 [] =
      some ("if o.P != nil \x7b\ncp.P = o.P.DeepCopy()\n\x7d\n", 0, []) := by
  refine ⟨?_, ?_, ?_⟩
  · rw [reuse_check_policy.1 demoCfg hcEnv [] "pkg" 4 "o" "cp" tyHC [] []]
    decide
  · rw [reuse_check_policy.2.1 demoCfg hcEnv [] "pkg" 4 "o.F" "cp.F" tyHC []
      1 [] [mHC] true (by decide) (by decide) rfl (by decide)]
    decide
  · rw [reuse_check_policy.2.2.1 demoCfg hcEnv [] "pkg"
      (fun _ _ _ _ => none) "o.P" "cp.P" tyHC false [] 2 [] [mHC] true rfl
      (by decide)]
    decide

/-- C7: generation is all-or-nothing.  (1) Whenever `Generate` ends
with a hard error, the sequence of chunks written to the destination is
empty — nothing is written for target types that would have generated
successfully.  (2) A requested type missing from the unit aborts with
`notFound` (the first failing name, before any function is built).
(3) With every type located but no syntax files, receiver-name
inference aborts the run with `missingSyntax`.  (4) A formatter
rejection aborts with `invalidOutput` carrying both the formatter's
diagnostic and the raw unformatted text, and writes nothing.  (5) Only
a formatter success writes, exactly once, the formatted bytes. -/
theorem generate_all_or_nothing :
    (∀ (g : Config) (env : Env) (fuel : Nat) (argv : String)
       (fmtF : String → Except String String) (sl : SkipLists)
       (typeNames : List String) (p : Pkg)
       (res : List String × Option GenError),
       Generate g env fuel argv fmtF sl typeNames p = some res →
       res.2.isSome → res.1 = []) ∧
    (∀ (g : Config) (env : Env) (fuel : Nat) (argv : String)
       (fmtF : String → Except String String) (sl : SkipLists)
       (typeNames : List String) (p : Pkg) (k : String),
       typeNames.find? (fun k => (locateType k p).isNone) = some k →
       Generate g env fuel argv fmtF sl typeNames p =
         some ([], some (.notFound k p.name))) ∧
    (∀ (g : Config) (env : Env) (fuel : Nat) (argv : String)
       (fmtF : String → Except String String) (sl : SkipLists)
       (typeNames : List String) (p : Pkg),
       typeNames.find? (fun k => (locateType k p).isNone) = none →
       p.srcFiles = [] →
       Generate g env fuel argv fmtF sl typeNames p =
         some ([], some .missingSyntax)) ∧
    (∀ (g : Config) (env : Env) (fuel : Nat) (argv : String)
       (fmtF : String → Except String String) (sl : SkipLists)
       (typeNames : List String) (p : Pkg) (fns : List String)
       (imp : ImpTable) (d : String),
       typeNames.find? (fun k => (locateType k p).isNone) = none →
       p.srcFiles ≠ [] →
       genFns g env fuel p.name (p.srcFiles.foldl collectFile [])
         (typeNames.filterMap (fun k => locateType k p)) sl
         (typeNames.filterMap (fun k => locateType k p)) 0 [] [] =
         some (fns, imp) →
       fmtF (assembleFile argv p.name imp fns) = .error d →
       Generate g env fuel argv fmtF sl typeNames p =
         some ([], some (.invalidOutput d
           (assembleFile argv p.name imp fns)))) ∧
    (∀ (g : Config) (env : Env) (fuel : Nat) (argv : String)
       (fmtF : String → Except String String) (sl : SkipLists)
       (typeNames : List String) (p : Pkg) (fns : List String)
       (imp : ImpTable) (b : String),
       typeNames.find? (fun k => (locateType k p).isNone) = none →
       p.srcFiles ≠ [] →
       genFns g env fuel p.name (p.srcFiles.foldl collectFile [])
         (typeNames.filterMap (fun k => locateType k p)) sl
         (typeNames.filterMap (fun k => locateType k p)) 0 [] [] =
         some (fns, imp) →
       fmtF (assembleFile argv p.name imp fns) = .ok b →
       Generate g env fuel argv fmtF sl typeNames p = some ([b], none)) := by
  refine ⟨?_, ?_, ?_, ?_, ?_⟩
  · intro g env fuel argv fmtF sl typeNames p res h hsome
    simp only [Generate] at h
    split at h
    · injection h with h
      subst h
      rfl
    · split at h
      · injection h with h
        subst h
        rfl
      · split at h
        · exact absurd h (by simp)
        · split at h
          · injection h with h
            subst h
            rfl
          · injection h with h
            subst h
            simp at hsome
  · intro g env fuel argv fmtF sl typeNames p k hfind
    simp only [Generate, hfind]
  · intro g env fuel argv fmtF sl typeNames p hfind hsrc
    have hrn : getReceiverNames p = .error "packages.Package has no Syntax." := by
      simp [getReceiverNames, hsrc]
    simp only [Generate, hfind, hrn]
  · intro g env fuel argv fmtF sl typeNames p fns imp d hfind hsrc hgen hfmt
    have hrn : getReceiverNames p = .ok (p.srcFiles.foldl collectFile []) := by
      simp [getReceiverNames, List.isEmpty_iff, hsrc]
    simp only [Generate, hfind, hrn, hgen, hfmt]
  · intro g env fuel argv fmtF sl typeNames p fns imp b hfind hsrc hgen hfmt
    have hrn : getReceiverNames p = .ok (p.srcFiles.foldl collectFile []) := by
      simp [getReceiverNames, List.isEmpty_iff, hsrc]
    simp only [Generate, hfind, hrn, hgen, hfmt]

/-- A hand-written syntax file declaring a method on `Inner` with
receiver variable `in0`. -/
def srcF : SrcFile := ⟨false, [⟨some "Inner", "in0"⟩]⟩

/-- A package in which `Inner` is locatable and syntax is present. -/
def pOK : Pkg := ⟨"pkg", [srcF], [demoInner]⟩

/-- The same package with no syntax files. -/
def pNoSyntax : Pkg := ⟨"pkg", [], [demoInner]⟩

/-- A formatter that rejects everything. -/
def rejectFmt : String → Except String String := fun _ => .error "syntax error"

/-- Closed instance of `generate_all_or_nothing`: formatter rejection
returns the diagnostic together with the raw text and writes nothing;
an empty syntax list aborts with `missingSyntax`; a missing target type
aborts with `notFound` — in all three cases the written-chunk list is
empty. -/
theorem generate_all_or_nothing_witness :
    Generate demoCfg demoEnv 9 "argv" rejectFmt [] ["Inner"] pOK =
      some ([], some (.invalidOutput "syntax error"
        "// Code generated by argv; DO NOT EDIT.\n\npackage pkg\n\n// DeepCopy generates a deep copy of Inner\nfunc (in0 Inner) DeepCopy() Inner \x7b\n\tvar cp Inner = in0\nreturn cp\n\x7d\n\n")) ∧
    Generate demoCfg demoEnv 9 "argv" rejectFmt [] ["Inner"] pNoSyntax =
      some ([], some .missingSyntax) ∧
    Generate demoCfg demoEnv 9 "argv" rejectFmt [] ["Missing"] pOK =
      some ([], some (.notFound "Missing" "pkg")) := by
  refine ⟨?_, ?_, ?_⟩
  · rw [generate_all_or_nothing.2.2.2.1 demoCfg demoEnv 9 "argv" rejectFmt []
      ["Inner"] pOK
      ["// DeepCopy generates a deep copy of Inner\nfunc (in0 Inner) DeepCopy() Inner \x7b\n\tvar cp Inner = in0\nreturn cp\n\x7d"]
      [] "syntax error" (by decide) (by simp [pOK]) (by decide) rfl]
    decide
  · exact generate_all_or_nothing.2.2.1 demoCfg demoEnv 9 "argv" rejectFmt []
      ["Inner"] pNoSyntax (by decide) rfl
  · exact generate_all_or_nothing.2.1 demoCfg demoEnv 9 "argv" rejectFmt []
      ["Missing"] pOK "Missing" (by decide)

/-- `find?` only looks at members, so pointwise-equal predicates find
the same element. -/
theorem find?_congr_mem {α : Type} (l : List α) (p q : α → Bool)
    (h : ∀ a ∈ l, p a = q a) : l.find? p = l.find? q := by
  induction l with
  | nil => rfl
  | cons a rest ih =>
      rw [List.find?_cons, List.find?_cons, h a (by simp)]
      split
      · rfl
      · exact ih (fun b hb => h b (by simp [hb]))

/-- `findSome?` is invariant under permutation of the list when all
hits agree on their value: the first hit of any order is the common
value. -/
theorem findSome?_perm_of_unique {α β : Type} (f : α → Option β)
    {l1 l2 : List α} (hperm : l1.Perm l2)
    (huniq : ∀ a ∈ l1, ∀ b ∈ l1, ∀ m1 m2,
      f a = some m1 → f b = some m2 → m1 = m2) :
    l1.findSome? f = l2.findSome? f := by
  cases h1 : l1.findSome? f with
  | none =>
      rw [List.findSome?_eq_none_iff] at h1
      symm
      rw [List.findSome?_eq_none_iff]
      intro x hx
      exact h1 x (hperm.mem_iff.mpr hx)
  | some m =>
      obtain ⟨a, ha, hfa⟩ := List.exists_of_findSome?_eq_some h1
      cases h2 : l2.findSome? f with
      | none =>
          rw [List.findSome?_eq_none_iff] at h2
          exact absurd hfa (by simp [h2 a (hperm.mem_iff.mp ha)])
      | some m2 =>
          obtain ⟨b, hb, hfb⟩ := List.exists_of_findSome?_eq_some h2
          rw [huniq a ha b (hperm.mem_iff.mpr hb) m m2 hfa hfb]

/-- `locateType` is independent of the `TypesInfo.Defs` iteration order
exactly when every defined object passing `exprFilter` for the
requested name resolves to the same type object. -/
theorem locateType_perm (kind : String) (p1 p2 : Pkg)
    (hn : p1.name = p2.name) (hperm : p1.defs.Perm p2.defs)
    (huniq : ∀ t1 ∈ p1.defs, ∀ t2 ∈ p1.defs, ∀ m1 m2,
      exprFilter t1 kind p1.name = some m1 →
      exprFilter t2 kind p1.name = some m2 → m1 = m2) :
    locateType kind p1 = locateType kind p2 := by
  unfold locateType
  rw [← hn]
  exact findSome?_perm_of_unique _ hperm huniq

/-- The rest of the pipeline is a congruence: two runs of `Generate`
over the same package content (equal name and syntax files, permuted
`defs`) whose `locateType` answers agree on every requested name
produce equal results. -/
theorem Generate_congr (g : Config) (env : Env) (fuel : Nat) (argv : String)
    (fmtF : String → Except String String) (sl : SkipLists)
    (names : List String) (p1 p2 : Pkg)
    (hn : p1.name = p2.name) (hs : p1.srcFiles = p2.srcFiles)
    (hloc : ∀ kind ∈ names, locateType kind p1 = locateType kind p2) :
    Generate g env fuel argv fmtF sl names p1 =
      Generate g env fuel argv fmtF sl names p2 := by
  obtain ⟨n1, s1, d1⟩ := p1
  obtain ⟨n2, s2, d2⟩ := p2
  dsimp only at hn hs
  subst hn
  subst hs
  simp only [Generate]
  rw [find?_congr_mem names
    (fun k => (locateType k ⟨n1, s1, d1⟩).isNone)
    (fun k => (locateType k ⟨n1, s1, d2⟩).isNone)
    (fun k hk => by dsimp only; rw [hloc k hk])]
  rw [List.filterMap_congr (fun k hk => hloc k hk)]
  rw [show getReceiverNames ⟨n1, s1, d1⟩ = getReceiverNames ⟨n1, s1, d2⟩
    from rfl]

/-- A type `Dup` defined in the current package (path `a/pkg`). -/
def dupLocal : Ty := .named "pkg" "a/pkg" "Dup"

/-- A type `Dup` from a different package that happens to have the same
package name `pkg` (path `b/pkg`); `exprFilter` compares only the
package name and the type name, never the path, so an object of this
type among the package's defs (e.g. the def of `var v bpkg.Dup`) passes
the filter for `Dup` as well. -/
def dupForeign : Ty := .named "pkg" "b/pkg" "Dup"

/-- Type graph giving the two `Dup`s different underlying structs (the
foreign one carries a pointer field), so their generated bodies
differ. -/
def dupEnv : Env :=
  (("pkg", "a/pkg", "Dup"),
    (⟨.strukt (.cons "X" true (.basic "int") .nil), []⟩ : TyDef)) ::
  (("pkg", "b/pkg", "Dup"),
    (⟨.strukt (.cons "P" true (.ptr demoInner) .nil), []⟩ : TyDef)) :: demoEnv

/-- A hand-written syntax file with no receiver declarations. -/
def fileNone : SrcFile := ⟨false, []⟩

/-- One run's view of the package: the local `Dup` first. -/
def dupP1 : Pkg := ⟨"pkg", [fileNone], [dupLocal, dupForeign]⟩

/-- Another run's view of the same package: the foreign-typed def
first. -/
def dupP2 : Pkg := ⟨"pkg", [fileNone], [dupForeign, dupLocal]⟩

/-- A formatter that accepts its input unchanged.  (The two outputs it
passes through below differ inside function bodies — one contains a
pointer-copy block the other lacks — a difference no reformatting can
cancel.) -/
def okFmt : String → Except String String := fun s => .ok s

/-- C9 counterexample: `locateType` ranges over the `TypesInfo.Defs` Go
map (part_000 line 405), whose iteration order is randomized per run.
On a package whose defs contain two distinct type objects passing
`exprFilter` for the requested name `Dup` — its own type `Dup` and a
def whose type is `Dup` of a same-named foreign package — two runs
(modelled as the two permutations of `defs`) locate different objects
and `Generate` emits byte-different output, refuting unconditional
byte-identical determinism. -/
theorem generate_defs_order_counterexample :
    dupP1.name = dupP2.name ∧
    dupP1.srcFiles = dupP2.srcFiles ∧
    dupP1.defs.Perm dupP2.defs ∧
    locateType "Dup" dupP1 ≠ locateType "Dup" dupP2 ∧
    Generate demoCfg dupEnv 9 "argv" okFmt [] ["Dup"] dupP1 ≠
      Generate demoCfg dupEnv 9 "argv" okFmt [] ["Dup"] dupP2 := by
  refine ⟨rfl, rfl, ?_, ?_, by decide⟩
  · exact List.Perm.swap dupForeign dupLocal []
  · intro h
    have h2 : (some dupLocal : Option Ty) = some dupForeign := h
    have h3 : dupLocal = dupForeign := Option.some.inj h2
    have h4 : Ty.named "pkg" "a/pkg" "Dup" = Ty.named "pkg" "b/pkg" "Dup" := h3
    injection h4 with hpn hpp hnm
    exact absurd hpp (by decide)

/-- C9 amended: generation is deterministic once type-name resolution
is unambiguous.  (1) `locateType` is independent of the
`TypesInfo.Defs` iteration order whenever all defs passing `exprFilter`
for the requested name agree on the located object (the common case:
the type's own def plus any vars of that type).  (2) Under equal
located objects, equal package name and equal syntax files, the whole
`Generate` pipeline is a pure function — two runs return equal results
chunk for chunk.  (3) The remaining run-to-run variation, the `imports`
map iteration order in `generateFile`, is cancelled by the external
formatter's canonical form, which sorts the import specs: permuted
tables format byte-identically. -/
theorem generation_deterministic_up_to_resolution :
    (∀ (kind : String) (p1 p2 : Pkg),
       p1.name = p2.name → p1.defs.Perm p2.defs →
       (∀ t1 ∈ p1.defs, ∀ t2 ∈ p1.defs, ∀ m1 m2,
         exprFilter t1 kind p1.name = some m1 →
         exprFilter t2 kind p1.name = some m2 → m1 = m2) →
       locateType kind p1 = locateType kind p2) ∧
    (∀ (g : Config) (env : Env) (fuel : Nat) (argv : String)
       (fmtF : String → Except String String) (sl : SkipLists)
       (names : List String) (p1 p2 : Pkg),
       p1.name = p2.name → p1.srcFiles = p2.srcFiles →
       (∀ kind ∈ names, locateType kind p1 = locateType kind p2) →
       Generate g env fuel argv fmtF sl names p1 =
         Generate g env fuel argv fmtF sl names p2) ∧
    (∀ (argv pkgName : String) (fns : List String) (o1 o2 : ImpTable),
       o1.Perm o2 →
       formatModel argv pkgName o1 fns = formatModel argv pkgName o2 fns) := by
  refine ⟨?_, ?_, ?_⟩
  · exact locateType_perm
  · exact Generate_congr
  · intro argv pkgName fns o1 o2 h
    unfold formatModel
    rw [sortImportEntries_perm_eq h]

/-- A package whose defs both resolve `Inner` to the same object (the
type def and a var of type `*Inner`), in one order. -/
def resQ1 : Pkg := ⟨"pkg", [fileNone], [demoInner, .ptr demoInner]⟩

/-- The same package in the other defs order. -/
def resQ2 : Pkg := ⟨"pkg", [fileNone], [.ptr demoInner, demoInner]⟩

/-- Closed instance of `generation_deterministic_up_to_resolution`:
with unambiguous resolution the two defs orders locate the same
object and `Generate` returns identical output; the two iteration
orders of a two-entry imports table format identically. -/
theorem generation_deterministic_up_to_resolution_witness :
    locateType "Inner" resQ1 = locateType "Inner" resQ2 ∧
    Generate demoCfg demoEnv 9 "argv" okFmt [] ["Inner"] resQ1 =
      Generate demoCfg demoEnv 9 "argv" okFmt [] ["Inner"] resQ2 ∧
    formatModel "argv" "pkg" [("bytes", "bytes"), ("fmt", "fmt")] ["func f()"]
      = formatModel "argv" "pkg" [("fmt", "fmt"), ("bytes", "bytes")]
        ["func f()"] := by
  have huniq : ∀ t1 ∈ resQ1.defs, ∀ t2 ∈ resQ1.defs, ∀ m1 m2,
      exprFilter t1 "Inner" resQ1.name = some m1 →
      exprFilter t2 "Inner" resQ1.name = some m2 → m1 = m2 := by
    have hall : ∀ t ∈ resQ1.defs, ∀ m : Ty,
        exprFilter t "Inner" resQ1.name = some m → m = demoInner := by
      intro t ht m hm
      rcases List.mem_cons.mp ht with rfl | ht2
      · exact (Option.some.inj (hm : (some demoInner : Option Ty) = some m)).symm
      · rcases List.mem_cons.mp ht2 with rfl | ht3
        · exact (Option.some.inj (hm : (some demoInner : Option Ty) = some m)).symm
        · exact absurd ht3 (List.not_mem_nil t)
    intro t1 ht1 t2 ht2 m1 m2 hm1 hm2
    rw [hall t1 ht1 m1 hm1, hall t2 ht2 m2 hm2]
  refine ⟨?_, ?_, ?_⟩
  · refine generation_deterministic_up_to_resolution.1 "Inner" resQ1 resQ2
      rfl ?_ huniq
    show List.Perm [demoInner, .ptr demoInner] [.ptr demoInner, demoInner]
    exact List.Perm.swap (.ptr demoInner) demoInner []
  · refine generation_deterministic_up_to_resolution.2.1 demoCfg demoEnv 9
      "argv" okFmt [] ["Inner"] resQ1 resQ2 rfl rfl ?_
    intro kind hk
    rw [List.mem_singleton] at hk
    subst hk
    rfl
  · exact generation_deterministic_up_to_resolution.2.2 "argv" "pkg"
      ["func f()"] [("bytes", "bytes"), ("fmt", "fmt")]
      [("fmt", "fmt"), ("bytes", "bytes")]
      (List.Perm.swap ("fmt", "fmt") ("bytes", "bytes") [])

end DeepCopyGen
